import Mathlib

/-!
Verification of the AutoAudit Pro status-lifecycle / eligibility engine,
persistence gateway and aggregation layer.

The definitions below are a shallow embedding of the TypeScript source:

* `src/components/AnalysisView.tsx` — `checkEligibility`, `determineMoveType`,
  `handleStatusChange`;
* `src/components/InspectionForm.tsx` — `checkEligibility` (program variant),
  the auto-downgrade `useEffect`, and the numeric input coercions;
* `src/services/storageService.ts` (full variant) — the local-storage
  fallback store, the Supabase-backed remote store, and `syncLocalToCloud`;
* `src/App.tsx` — `handleAnalyze` (case construction);
* `src/services/geminiService.ts` — extraction of the `[DETECTED_TOTAL: …]`
  marker from the AI response text.

JavaScript numbers are modelled as `Int` (integral fields) or `ℚ` (dollar
amounts); where `NaN` propagation is the point under study a number is an
`Option Int` / the `JsNum` type, with `none`/`JsNum.nan` playing the role of
`NaN` (every JS comparison involving `NaN` is false).
-/

/-- The `PostReviewStatus` string enum from `types.ts`: lifecycle status of a
case.  `HCUV` is the top-tier certified program, `HAPO` the mid-tier one,
`CERTIFIED` the generic certified program. -/
inductive PostReviewStatus where
  | HCUV
  | HAPO
  | CERTIFIED
  | WHOLESALE
  | AS_IS_RETAIL
deriving DecidableEq, Repr, Fintype

/-- The `InventoryProgram` string enum from `types.ts`: the target program
selected during intake. -/
inductive InventoryProgram where
  | HCUV
  | HAPO
  | CERTIFIED
deriving DecidableEq, Repr, Fintype

/-- The move classification stored in a history entry
(`'Upgrade' | 'Downgrade' | 'Lateral'`). -/
inductive MoveType where
  | Upgrade
  | Downgrade
  | Lateral
deriving DecidableEq, Repr

/-- The `Vehicle` record from `types.ts`.  `year` and `kilometres` are JS
numbers holding integral values. -/
structure Vehicle where
  vin : String
  year : Int
  make : String
  model : String
  trim : String
  kilometres : Int
  stockNumber : Option String
  acquisitionType : String
deriving DecidableEq, Repr

/-- The `InspectionData` record from `types.ts`.  The two dollar estimates are
`Option ℚ`: `none` models a record (e.g. parsed from old stored JSON) in which
the field is `undefined`; the code reads them as `x || 0`. -/
structure InspectionData where
  type : String
  program : InventoryProgram
  safetyOutcome : String
  hcuvOutcome : String
  technicianNotes : String
  technicianName : String
  appraiserName : String
  appraiserNotes : String
  managerAppraisalEstimate : Option ℚ
  serviceDepartmentEstimate : Option ℚ
  attachments : List String
deriving DecidableEq, Repr

/-- One entry of `statusHistory` (`StatusHistoryEntry` in `types.ts`).  The
TS fields `from` and `to` are Lean keywords and are rendered `from_` / `to_`. -/
structure StatusHistoryEntry where
  from_ : PostReviewStatus
  to_ : PostReviewStatus
  timestamp : Int
  type : MoveType
deriving DecidableEq, Repr

/-- A JS number that may be `NaN`: results of `parseFloat` on arbitrary text.
`JsNum.nan` is falsy and compares false under every relational operator. -/
inductive JsNum where
  | nan
  | num (q : ℚ)
deriving DecidableEq, Repr

/-- The `InspectionCase` record from `types.ts`.  `detectedTotal` is
`undefined` (outer `none`) when no marker was found in the AI text, and can be
`NaN` (inner `JsNum.nan`) when the marker's token does not parse. -/
structure InspectionCase where
  id : String
  timestamp : Int
  mode : String
  vehicle : Vehicle
  data : InspectionData
  analysis : Option String
  detectedTotal : Option JsNum
  currentStatus : PostReviewStatus
  statusHistory : List StatusHistoryEntry
deriving DecidableEq, Repr

/-- Result shape `{ ok: boolean; reason?: string }` returned by both
`checkEligibility` functions. -/
structure EligibilityResult where
  ok : Bool
  reason : Option String
deriving DecidableEq, Repr

namespace AnalysisView

/-- The eligibility evaluator of `AnalysisView.tsx` (`checkEligibility`),
for the case where `caseData` is present: `age = currentYear - year`, then the
HCUV block (age 6 / 120 000 km), then the HAPO block (age 10 / 200 000 km),
age checked before odometer in each block; every other status falls through to
`{ ok: true }`. -/
def checkEligibility (currentYear : Int) (v : Vehicle)
    (status : PostReviewStatus) : EligibilityResult :=
  let age := currentYear - v.year
  let kms := v.kilometres
  if status = PostReviewStatus.HCUV then
    if age > 6 then ⟨false, some "Age > 6yr"⟩
    else if kms > 120000 then ⟨false, some "KM > 120k"⟩
    else ⟨true, none⟩
  else if status = PostReviewStatus.HAPO then
    if age > 10 then ⟨false, some "Age > 10yr"⟩
    else if kms > 200000 then ⟨false, some "KM > 200k"⟩
    else ⟨true, none⟩
  else ⟨true, none⟩

/-- The `hierarchy` rank table of `determineMoveType` in `AnalysisView.tsx`. -/
def hierarchy : PostReviewStatus → Int
  | PostReviewStatus.HCUV => 4
  | PostReviewStatus.HAPO => 3
  | PostReviewStatus.CERTIFIED => 2
  | PostReviewStatus.AS_IS_RETAIL => 1
  | PostReviewStatus.WHOLESALE => 0

/-- The `determineMoveType` function of `AnalysisView.tsx`: sign of the rank
difference `hierarchy[to] - hierarchy[from]`. -/
def determineMoveType (fromStatus toStatus : PostReviewStatus) : MoveType :=
  let diff := hierarchy toStatus - hierarchy fromStatus
  if diff > 0 then MoveType.Upgrade
  else if diff < 0 then MoveType.Downgrade
  else MoveType.Lateral

end AnalysisView

namespace InspectionForm

/-- The eligibility evaluator of `InspectionForm.tsx` (`checkEligibility`),
identical thresholds over `InventoryProgram`, with the reasons spelled
`'Age > 6yrs'` / `'Age > 10yrs'`. -/
def checkEligibility (currentYear : Int) (v : Vehicle)
    (prog : InventoryProgram) : EligibilityResult :=
  let age := currentYear - v.year
  let kms := v.kilometres
  if prog = InventoryProgram.HCUV then
    if age > 6 then ⟨false, some "Age > 6yrs"⟩
    else if kms > 120000 then ⟨false, some "KM > 120k"⟩
    else ⟨true, none⟩
  else if prog = InventoryProgram.HAPO then
    if age > 10 then ⟨false, some "Age > 10yrs"⟩
    else if kms > 200000 then ⟨false, some "KM > 200k"⟩
    else ⟨true, none⟩
  else ⟨true, none⟩

/-- The auto-downgrade `useEffect` of `InspectionForm.tsx`: whenever the
selected program is HCUV and HCUV is ineligible, fall back to HAPO when HAPO
is eligible and to CERTIFIED otherwise; whenever the selected program is HAPO
and HAPO is ineligible, fall back to CERTIFIED; otherwise leave the selection
unchanged. -/
def adjustProgram (currentYear : Int) (v : Vehicle)
    (program : InventoryProgram) : InventoryProgram :=
  let hcuv := checkEligibility currentYear v InventoryProgram.HCUV
  let hapo := checkEligibility currentYear v InventoryProgram.HAPO
  if program = InventoryProgram.HCUV ∧ hcuv.ok = false then
    if hapo.ok then InventoryProgram.HAPO else InventoryProgram.CERTIFIED
  else if program = InventoryProgram.HAPO ∧ hapo.ok = false then
    InventoryProgram.CERTIFIED
  else program

end InspectionForm

namespace AnalysisView

/-- Whether `handleStatusChange` accepts a request for `s` on case `c`: the
request is not a no-op (`s ≠ currentStatus`) and `s` is eligible. -/
def accepts (currentYear : Int) (c : InspectionCase)
    (s : PostReviewStatus) : Bool :=
  s ≠ c.currentStatus && (checkEligibility currentYear c.vehicle s).ok

/-- The `handleStatusChange` handler of `AnalysisView.tsx` as a pure state
transformer (with `caseData` present and `Date.now()` passed in as `now`).
It returns the case held by the view after the call together with the list of
cases passed to `saveCase` during the call — empty on the two early returns
(no-op request, ineligible request). -/
def handleStatusChange (currentYear : Int) (c : InspectionCase)
    (newStatus : PostReviewStatus) (now : Int) :
    InspectionCase × List InspectionCase :=
  if newStatus = c.currentStatus then (c, [])
  else
    let eligibility := checkEligibility currentYear c.vehicle newStatus
    if eligibility.ok = false then (c, [])
    else
      let entry : StatusHistoryEntry :=
        ⟨c.currentStatus, newStatus, now, determineMoveType c.currentStatus newStatus⟩
      let updatedCase : InspectionCase :=
        { c with currentStatus := newStatus,
                 statusHistory := c.statusHistory ++ [entry] }
      (updatedCase, [updatedCase])

/-- Folding a whole sequence of status-change requests (status, timestamp)
through `handleStatusChange`. -/
def applyRequests (currentYear : Int) (c : InspectionCase)
    (reqs : List (PostReviewStatus × Int)) : InspectionCase :=
  reqs.foldl (fun st r => (handleStatusChange currentYear st r.1 r.2).1) c

/-- Number of requests of a sequence that are accepted (non-no-op and
eligible) when processed in order. -/
def countAccepted (currentYear : Int) :
    InspectionCase → List (PostReviewStatus × Int) → Nat
  | _, [] => 0
  | c, r :: rs =>
    let c' := (handleStatusChange currentYear c r.1 r.2).1
    (if accepts currentYear c r.1 then 1 else 0) + countAccepted currentYear c' rs

end AnalysisView

/-- The documented case invariant: the current status equals the `to` of the
last history entry, vacuous when the history is empty (then the current status
is still the case's initial status). -/
def caseInvariant (c : InspectionCase) : Prop :=
  match c.statusHistory.getLast? with
  | none => True
  | some e => c.currentStatus = e.to_

namespace AnalysisView

theorem handleStatusChange_rejected (currentYear now : Int) (c : InspectionCase)
    (s : PostReviewStatus) (h : accepts currentYear c s = false) :
    handleStatusChange currentYear c s now = (c, []) := by
  unfold handleStatusChange
  unfold accepts at h
  by_cases hs : s = c.currentStatus
  · simp [hs]
  · cases hok : (checkEligibility currentYear c.vehicle s).ok with
    | false => simp [hs, hok]
    | true => exfalso; simp [hs, hok] at h

theorem handleStatusChange_accepted (currentYear now : Int) (c : InspectionCase)
    (s : PostReviewStatus) (h : accepts currentYear c s = true) :
    handleStatusChange currentYear c s now =
      (let entry : StatusHistoryEntry :=
        ⟨c.currentStatus, s, now, determineMoveType c.currentStatus s⟩
       let updatedCase : InspectionCase :=
        { c with currentStatus := s,
                 statusHistory := c.statusHistory ++ [entry] }
       (updatedCase, [updatedCase])) := by
  unfold handleStatusChange
  unfold accepts at h
  simp only [Bool.and_eq_true, decide_eq_true_eq, ne_eq] at h
  obtain ⟨hs, he⟩ := h
  simp only [if_neg hs]
  simp [he]

end AnalysisView

namespace AnalysisView

theorem checkEligibility_HCUV (cy : Int) (v : Vehicle) :
    checkEligibility cy v PostReviewStatus.HCUV =
      if cy - v.year > 6 then ⟨false, some "Age > 6yr"⟩
      else if v.kilometres > 120000 then ⟨false, some "KM > 120k"⟩
      else ⟨true, none⟩ := rfl

theorem checkEligibility_HAPO (cy : Int) (v : Vehicle) :
    checkEligibility cy v PostReviewStatus.HAPO =
      if cy - v.year > 10 then ⟨false, some "Age > 10yr"⟩
      else if v.kilometres > 200000 then ⟨false, some "KM > 200k"⟩
      else ⟨true, none⟩ := by
  unfold checkEligibility
  rw [if_neg (by decide), if_pos rfl]

end AnalysisView

namespace InspectionForm

theorem checkEligibilityProg_HCUV (cy : Int) (v : Vehicle) :
    checkEligibility cy v InventoryProgram.HCUV =
      if cy - v.year > 6 then ⟨false, some "Age > 6yrs"⟩
      else if v.kilometres > 120000 then ⟨false, some "KM > 120k"⟩
      else ⟨true, none⟩ := rfl

theorem checkEligibilityProg_HAPO (cy : Int) (v : Vehicle) :
    checkEligibility cy v InventoryProgram.HAPO =
      if cy - v.year > 10 then ⟨false, some "Age > 10yrs"⟩
      else if v.kilometres > 200000 then ⟨false, some "KM > 200k"⟩
      else ⟨true, none⟩ := by
  unfold checkEligibility
  rw [if_neg (by decide), if_pos rfl]

end InspectionForm

/-- C2: the eligibility check is the fixed threshold table: the generic
certified, wholesale and as-is retail targets are always eligible; the
top-tier certified target (HCUV) is rejected with the age reason whenever
`age > 6` (age checked before odometer) and with the odometer reason whenever
`age ≤ 6` and `km > 120 000`; the mid-tier certified target (HAPO) behaves the
same with limits 10 years / 200 000 km; all remaining cases are eligible.
Stated for the `AnalysisView` evaluator over statuses and for the
`InspectionForm` evaluator over programs. -/
theorem C2_eligibility_table (cy : Int) (v : Vehicle) :
    (AnalysisView.checkEligibility cy v PostReviewStatus.CERTIFIED = ⟨true, none⟩)
    ∧ (AnalysisView.checkEligibility cy v PostReviewStatus.WHOLESALE = ⟨true, none⟩)
    ∧ (AnalysisView.checkEligibility cy v PostReviewStatus.AS_IS_RETAIL = ⟨true, none⟩)
    ∧ (cy - v.year > 6 →
        AnalysisView.checkEligibility cy v PostReviewStatus.HCUV
          = ⟨false, some "Age > 6yr"⟩)
    ∧ (cy - v.year ≤ 6 → v.kilometres > 120000 →
        AnalysisView.checkEligibility cy v PostReviewStatus.HCUV
          = ⟨false, some "KM > 120k"⟩)
    ∧ (cy - v.year ≤ 6 → v.kilometres ≤ 120000 →
        AnalysisView.checkEligibility cy v PostReviewStatus.HCUV = ⟨true, none⟩)
    ∧ (cy - v.year > 10 →
        AnalysisView.checkEligibility cy v PostReviewStatus.HAPO
          = ⟨false, some "Age > 10yr"⟩)
    ∧ (cy - v.year ≤ 10 → v.kilometres > 200000 →
        AnalysisView.checkEligibility cy v PostReviewStatus.HAPO
          = ⟨false, some "KM > 200k"⟩)
    ∧ (cy - v.year ≤ 10 → v.kilometres ≤ 200000 →
        AnalysisView.checkEligibility cy v PostReviewStatus.HAPO = ⟨true, none⟩)
    ∧ (InspectionForm.checkEligibility cy v InventoryProgram.CERTIFIED = ⟨true, none⟩)
    ∧ (cy - v.year > 6 →
        InspectionForm.checkEligibility cy v InventoryProgram.HCUV
          = ⟨false, some "Age > 6yrs"⟩)
    ∧ (cy - v.year ≤ 6 → v.kilometres > 120000 →
        InspectionForm.checkEligibility cy v InventoryProgram.HCUV
          = ⟨false, some "KM > 120k"⟩)
    ∧ (cy - v.year ≤ 6 → v.kilometres ≤ 120000 →
        InspectionForm.checkEligibility cy v InventoryProgram.HCUV = ⟨true, none⟩)
    ∧ (cy - v.year > 10 →
        InspectionForm.checkEligibility cy v InventoryProgram.HAPO
          = ⟨false, some "Age > 10yrs"⟩)
    ∧ (cy - v.year ≤ 10 → v.kilometres > 200000 →
        InspectionForm.checkEligibility cy v InventoryProgram.HAPO
          = ⟨false, some "KM > 200k"⟩)
    ∧ (cy - v.year ≤ 10 → v.kilometres ≤ 200000 →
        InspectionForm.checkEligibility cy v InventoryProgram.HAPO = ⟨true, none⟩) := by
  refine ⟨rfl, rfl, rfl, ?_, ?_, ?_, ?_, ?_, ?_, rfl, ?_, ?_, ?_, ?_, ?_, ?_⟩ <;>
    intros <;>
    simp only [AnalysisView.checkEligibility_HCUV, AnalysisView.checkEligibility_HAPO,
      InspectionForm.checkEligibilityProg_HCUV, InspectionForm.checkEligibilityProg_HAPO] <;>
    (first
      | rw [if_pos (by omega)]
      | rw [if_neg (by omega), if_pos (by omega)]
      | rw [if_neg (by omega), if_neg (by omega)])

/-- A concrete 2015 vehicle with 150 000 km: at current year 2026 its age is
11, so it is ineligible for both certified tiers. -/
def oldVehicle : Vehicle :=
  { vin := "1HGCM82633A004352", year := 2015, make := "Honda", model := "Civic"
  , trim := "LX", kilometres := 150000, stockNumber := none
  , acquisitionType := "Trade" }

/-- A concrete 2024 vehicle with 30 000 km: eligible for every program. -/
def freshVehicle : Vehicle :=
  { vin := "2HGFC2F59MH000000", year := 2024, make := "Honda", model := "CR-V"
  , trim := "EX", kilometres := 30000, stockNumber := some "P1234"
  , acquisitionType := "Lease Return" }

/-- Concrete inspection data used by the witnesses. -/
def sampleData : InspectionData :=
  { type := "Both", program := InventoryProgram.HCUV, safetyOutcome := "Pass"
  , hcuvOutcome := "Fail", technicianNotes := "brakes", technicianName := "Alex"
  , appraiserName := "Sam", appraiserNotes := "clean"
  , managerAppraisalEstimate := some 800, serviceDepartmentEstimate := some 1000
  , attachments := [] }

/-- A concrete case on the old vehicle, currently a generic certified unit,
with an empty history. -/
def sampleCase : InspectionCase :=
  { id := "case-1", timestamp := 100, mode := "Audit Mode", vehicle := oldVehicle
  , data := sampleData, analysis := none, detectedTotal := none
  , currentStatus := PostReviewStatus.CERTIFIED, statusHistory := [] }

/-- Witness for C2 at a concrete input: a vehicle of age 11 with 150 000 km is
rejected for HCUV with the age reason (even though the odometer limit is also
exceeded) and for HAPO with the age reason. -/
theorem C2_eligibility_table_witness :
    AnalysisView.checkEligibility 2026 oldVehicle PostReviewStatus.HCUV
      = ⟨false, some "Age > 6yr"⟩
    ∧ AnalysisView.checkEligibility 2026 oldVehicle PostReviewStatus.HAPO
      = ⟨false, some "Age > 10yr"⟩
    ∧ AnalysisView.checkEligibility 2026 oldVehicle PostReviewStatus.WHOLESALE
      = ⟨true, none⟩ :=
  ⟨(C2_eligibility_table 2026 oldVehicle).2.2.2.1 (by decide),
   (C2_eligibility_table 2026 oldVehicle).2.2.2.2.2.2.1 (by decide),
   (C2_eligibility_table 2026 oldVehicle).2.1⟩

/-- C3: a status-change request for a status that is ineligible for the case's
vehicle is rejected: `handleStatusChange` returns the case unchanged (every
field, including the history and its length) and passes nothing to
`saveCase`.  The rejection surfaces the eligibility reason through the same
`checkEligibility` result that the hypothesis constrains (an `alert` in the
UI). -/
theorem C3_ineligible_rejected (currentYear now : Int) (c : InspectionCase)
    (s : PostReviewStatus)
    (h : (AnalysisView.checkEligibility currentYear c.vehicle s).ok = false) :
    AnalysisView.handleStatusChange currentYear c s now = (c, []) := by
  unfold AnalysisView.handleStatusChange
  by_cases hs : s = c.currentStatus
  · simp [hs]
  · simp [hs, h]

/-- Witness for C3: requesting HCUV on the 11-year-old sample case leaves the
case untouched and persists nothing. -/
theorem C3_ineligible_rejected_witness :
    AnalysisView.handleStatusChange 2026 sampleCase PostReviewStatus.HCUV 500
      = (sampleCase, []) :=
  C3_ineligible_rejected 2026 500 sampleCase PostReviewStatus.HCUV (by decide)

/-- C4: for distinct statuses the recorded classification is `Upgrade` exactly
when the requested status ranks strictly higher than the current one in the
fixed order HCUV > HAPO > CERTIFIED > AS_IS_RETAIL > WHOLESALE, `Downgrade`
exactly when strictly lower, and never the equal-rank value `Lateral`; in
particular HCUV→WHOLESALE is a downgrade and WHOLESALE→HCUV an upgrade. -/
theorem C4_move_classification (s t : PostReviewStatus) (h : s ≠ t) :
    (AnalysisView.determineMoveType s t = MoveType.Upgrade
        ↔ AnalysisView.hierarchy s < AnalysisView.hierarchy t)
    ∧ (AnalysisView.determineMoveType s t = MoveType.Downgrade
        ↔ AnalysisView.hierarchy t < AnalysisView.hierarchy s)
    ∧ AnalysisView.determineMoveType s t ≠ MoveType.Lateral
    ∧ AnalysisView.determineMoveType PostReviewStatus.HCUV PostReviewStatus.WHOLESALE
        = MoveType.Downgrade
    ∧ AnalysisView.determineMoveType PostReviewStatus.WHOLESALE PostReviewStatus.HCUV
        = MoveType.Upgrade := by
  revert h
  revert t
  revert s
  decide

/-- Witness for C4 at a concrete pair of distinct statuses. -/
theorem C4_move_classification_witness :
    AnalysisView.determineMoveType PostReviewStatus.HCUV PostReviewStatus.CERTIFIED
      ≠ MoveType.Lateral :=
  (C4_move_classification PostReviewStatus.HCUV PostReviewStatus.CERTIFIED
    (by decide)).2.2.1

/-- C5: the intake auto-downgrade recomputed on each year/odometer change: an
eligible selection is left unchanged; an ineligible HCUV selection becomes
HAPO when HAPO is eligible and CERTIFIED otherwise; an ineligible HAPO
selection becomes CERTIFIED; and the resulting selection is always
eligible. -/
theorem C5_auto_downgrade (currentYear : Int) (v : Vehicle)
    (p : InventoryProgram) :
    ((InspectionForm.checkEligibility currentYear v p).ok = true →
        InspectionForm.adjustProgram currentYear v p = p)
    ∧ (p = InventoryProgram.HCUV →
        (InspectionForm.checkEligibility currentYear v InventoryProgram.HCUV).ok = false →
        (InspectionForm.checkEligibility currentYear v InventoryProgram.HAPO).ok = true →
        InspectionForm.adjustProgram currentYear v p = InventoryProgram.HAPO)
    ∧ (p = InventoryProgram.HCUV →
        (InspectionForm.checkEligibility currentYear v InventoryProgram.HCUV).ok = false →
        (InspectionForm.checkEligibility currentYear v InventoryProgram.HAPO).ok = false →
        InspectionForm.adjustProgram currentYear v p = InventoryProgram.CERTIFIED)
    ∧ (p = InventoryProgram.HAPO →
        (InspectionForm.checkEligibility currentYear v InventoryProgram.HAPO).ok = false →
        InspectionForm.adjustProgram currentYear v p = InventoryProgram.CERTIFIED)
    ∧ (InspectionForm.checkEligibility currentYear v
        (InspectionForm.adjustProgram currentYear v p)).ok = true := by
  have hcert : (InspectionForm.checkEligibility currentYear v
      InventoryProgram.CERTIFIED).ok = true := rfl
  cases p <;>
    cases hh : (InspectionForm.checkEligibility currentYear v InventoryProgram.HCUV).ok <;>
    cases ha : (InspectionForm.checkEligibility currentYear v InventoryProgram.HAPO).ok <;>
    simp_all [InspectionForm.adjustProgram]

/-- Witness for C5: on the 11-year-old vehicle an HCUV selection falls back to
CERTIFIED (HAPO is also ineligible at age 11). -/
theorem C5_auto_downgrade_witness :
    InspectionForm.adjustProgram 2026 oldVehicle InventoryProgram.HCUV
      = InventoryProgram.CERTIFIED :=
  (C5_auto_downgrade 2026 oldVehicle InventoryProgram.HCUV).2.2.1 rfl
    (by decide) (by decide)

namespace AnalysisView

theorem handleStatusChange_fst_rejected (currentYear now : Int)
    (c : InspectionCase) (s : PostReviewStatus)
    (h : accepts currentYear c s = false) :
    (handleStatusChange currentYear c s now).1 = c := by
  rw [handleStatusChange_rejected currentYear now c s h]

theorem applyRequests_spec (currentYear : Int) :
    ∀ (reqs : List (PostReviewStatus × Int)) (c : InspectionCase),
      c.statusHistory <+: (applyRequests currentYear c reqs).statusHistory
      ∧ (applyRequests currentYear c reqs).statusHistory.length
          = c.statusHistory.length + countAccepted currentYear c reqs
      ∧ (caseInvariant c → caseInvariant (applyRequests currentYear c reqs))
      ∧ ((applyRequests currentYear c reqs).statusHistory = [] →
          applyRequests currentYear c reqs = c) := by
  intro reqs
  induction reqs with
  | nil =>
    intro c
    exact ⟨List.prefix_refl _, by simp [applyRequests, countAccepted],
      fun h => h, fun _ => rfl⟩
  | cons r rs ih =>
    intro c
    have hfold : applyRequests currentYear c (r :: rs)
        = applyRequests currentYear ((handleStatusChange currentYear c r.1 r.2).1) rs := rfl
    have hcount : countAccepted currentYear c (r :: rs)
        = (if accepts currentYear c r.1 then 1 else 0)
          + countAccepted currentYear ((handleStatusChange currentYear c r.1 r.2).1) rs := rfl
    cases hacc : accepts currentYear c r.1 with
    | false =>
      have hstep : (handleStatusChange currentYear c r.1 r.2).1 = c :=
        handleStatusChange_fst_rejected currentYear r.2 c r.1 hacc
      have hcnt2 : countAccepted currentYear c (r :: rs)
          = countAccepted currentYear c rs := by
        rw [hcount, hstep, hacc]; simp
      rw [hfold, hstep, hcnt2]
      exact ih c
    | true =>
      have hstep := handleStatusChange_accepted currentYear r.2 c r.1 hacc
      set entry : StatusHistoryEntry :=
        ⟨c.currentStatus, r.1, r.2, determineMoveType c.currentStatus r.1⟩ with hentry
      set c1 : InspectionCase :=
        { c with currentStatus := r.1,
                 statusHistory := c.statusHistory ++ [entry] } with hc1
      have hstep1 : (handleStatusChange currentYear c r.1 r.2).1 = c1 := by
        rw [hstep]
      obtain ⟨ih1, ih2, ih3, ih4⟩ := ih c1
      have hcnt2 : countAccepted currentYear c (r :: rs)
          = 1 + countAccepted currentYear c1 rs := by
        rw [hcount, hstep1, hacc]; simp
      rw [hfold, hstep1, hcnt2]
      refine ⟨?_, ?_, ?_, ?_⟩
      · calc c.statusHistory <+: c1.statusHistory := by
              rw [hc1]; exact List.prefix_append _ _
          _ <+: (applyRequests currentYear c1 rs).statusHistory := ih1
      · have hlen : c1.statusHistory.length = c.statusHistory.length + 1 := by
          rw [hc1]; simp
        omega
      · intro _
        apply ih3
        show caseInvariant c1
        unfold caseInvariant
        rw [hc1]
        simp [List.getLast?_concat]
      · intro hempty
        exfalso
        have hpref : c1.statusHistory <+: (applyRequests currentYear c1 rs).statusHistory := ih1
        rw [hempty] at hpref
        have : c1.statusHistory.length = 0 := by
          simpa using List.IsPrefix.length_le hpref
        rw [hc1] at this
        simp at this

end AnalysisView

/-- C1: over any sequence of status-change requests, the existing history is
preserved as a prefix (never modified, removed or reordered); exactly one
entry is appended per accepted non-no-op request (a request equal to the
current status, or for an ineligible status, appends nothing and leaves the
case untouched); the invariant "current status = `to` of the last history
entry" is preserved; and if the final history is empty the case — hence its
current (initial) status — is unchanged. -/
theorem C1_history_append_only (currentYear : Int) (c : InspectionCase)
    (reqs : List (PostReviewStatus × Int)) :
    c.statusHistory <+: (AnalysisView.applyRequests currentYear c reqs).statusHistory
    ∧ (AnalysisView.applyRequests currentYear c reqs).statusHistory.length
        = c.statusHistory.length + AnalysisView.countAccepted currentYear c reqs
    ∧ (∀ (s : PostReviewStatus) (now : Int),
        AnalysisView.accepts currentYear c s = false →
        AnalysisView.handleStatusChange currentYear c s now = (c, []))
    ∧ (caseInvariant c → caseInvariant (AnalysisView.applyRequests currentYear c reqs))
    ∧ ((AnalysisView.applyRequests currentYear c reqs).statusHistory = [] →
        AnalysisView.applyRequests currentYear c reqs = c) := by
  obtain ⟨h1, h2, h3, h4⟩ := AnalysisView.applyRequests_spec currentYear reqs c
  exact ⟨h1, h2,
    fun s now h => AnalysisView.handleStatusChange_rejected currentYear now c s h,
    h3, h4⟩

/-- Witness for C1: the sample case (initially CERTIFIED, empty history) put
through the request sequence [WHOLESALE, WHOLESALE (no-op), HCUV (ineligible),
AS_IS_RETAIL] accepts exactly two requests, and afterwards the current status
equals the `to` of the last history entry. -/
theorem C1_history_append_only_witness :
    ([] : List StatusHistoryEntry) <+:
      (AnalysisView.applyRequests 2026 sampleCase
        [(PostReviewStatus.WHOLESALE, 200), (PostReviewStatus.WHOLESALE, 300),
         (PostReviewStatus.HCUV, 400), (PostReviewStatus.AS_IS_RETAIL, 500)]).statusHistory
    ∧ (AnalysisView.applyRequests 2026 sampleCase
        [(PostReviewStatus.WHOLESALE, 200), (PostReviewStatus.WHOLESALE, 300),
         (PostReviewStatus.HCUV, 400), (PostReviewStatus.AS_IS_RETAIL, 500)]).statusHistory.length
        = 0 + AnalysisView.countAccepted 2026 sampleCase
            [(PostReviewStatus.WHOLESALE, 200), (PostReviewStatus.WHOLESALE, 300),
             (PostReviewStatus.HCUV, 400), (PostReviewStatus.AS_IS_RETAIL, 500)]
    ∧ caseInvariant (AnalysisView.applyRequests 2026 sampleCase
        [(PostReviewStatus.WHOLESALE, 200), (PostReviewStatus.WHOLESALE, 300),
         (PostReviewStatus.HCUV, 400), (PostReviewStatus.AS_IS_RETAIL, 500)]) := by
  obtain ⟨h1, h2, h3, h4, h5⟩ := C1_history_append_only 2026 sampleCase
    [(PostReviewStatus.WHOLESALE, 200), (PostReviewStatus.WHOLESALE, 300),
     (PostReviewStatus.HCUV, 400), (PostReviewStatus.AS_IS_RETAIL, 500)]
  exact ⟨h1, h2, h4 trivial⟩

namespace AnalysisView

/-- JS `>` with a possibly-NaN left operand (`none` plays `NaN`): every
relational comparison involving `NaN` is false. -/
def jsGtInt : Option Int → Int → Bool
  | none, _ => false
  | some a, b => a > b

/-- The `checkEligibility` evaluator of `AnalysisView.tsx` evaluated on JS
numbers that may be `NaN` (`none`): `age = currentYear - vehicle.year`
propagates `NaN`, and each threshold test is a JS `>` that is false on
`NaN`.  Identical to `checkEligibility` on numeric inputs. -/
def checkEligibilityNum (currentYear : Int) (year kilometres : Option Int)
    (status : PostReviewStatus) : EligibilityResult :=
  let age := year.map (fun y => currentYear - y)
  let kms := kilometres
  if status = PostReviewStatus.HCUV then
    if jsGtInt age 6 then ⟨false, some "Age > 6yr"⟩
    else if jsGtInt kms 120000 then ⟨false, some "KM > 120k"⟩
    else ⟨true, none⟩
  else if status = PostReviewStatus.HAPO then
    if jsGtInt age 10 then ⟨false, some "Age > 10yr"⟩
    else if jsGtInt kms 200000 then ⟨false, some "KM > 200k"⟩
    else ⟨true, none⟩
  else ⟨true, none⟩

end AnalysisView

namespace InspectionForm

/-- The odometer input handler of `InspectionForm.tsx`:
`parseInt(e.target.value) || 0` — a non-numeric parse (`NaN`, modelled
`none`) or a parse of `0` (falsy) silently becomes `0`. -/
def coerceKilometres : Option Int → Int
  | none => 0
  | some k => if k = 0 then 0 else k

/-- The year input handler of `InspectionForm.tsx`:
`parseInt(e.target.value) || currentYear` — a non-numeric parse (`NaN`) or a
parse of `0` silently becomes the current year. -/
def coerceYear (currentYear : Int) : Option Int → Int
  | none => currentYear
  | some y => if y = 0 then currentYear else y

end InspectionForm

/-- Counterexample to C9: on invalid (non-numeric, `NaN`) age and odometer
input the evaluator does not reject — it returns the eligible verdict
`{ ok: true }` for the top-tier certified target (and every other target),
because every JS threshold comparison on `NaN` is false.  There is no failure
path in the evaluator at all. -/
theorem C9_counterexample :
    AnalysisView.checkEligibilityNum 2026 none none PostReviewStatus.HCUV
      = ⟨true, none⟩
    ∧ AnalysisView.checkEligibilityNum 2026 none none PostReviewStatus.HAPO
      = ⟨true, none⟩ := by
  constructor
  · rfl
  · unfold AnalysisView.checkEligibilityNum
    rw [if_neg (by decide), if_pos rfl]
    rfl

/-- C9 as amended: the evaluator is total and never rejects; non-numeric
input is silently defaulted rather than rejected — a `NaN` age/odometer makes
every threshold comparison false so the evaluator returns eligible for every
target; on numeric inputs the `NaN`-aware evaluator agrees with the integer
one; and the form input handlers already coerce a non-numeric odometer to `0`
and a non-numeric (or zero) year to the current year before the evaluator
runs. -/
theorem C9_no_rejection_silent_default (currentYear : Int) :
    (∀ s, AnalysisView.checkEligibilityNum currentYear none none s = ⟨true, none⟩)
    ∧ (∀ (v : Vehicle) (s : PostReviewStatus),
        AnalysisView.checkEligibilityNum currentYear (some v.year)
          (some v.kilometres) s = AnalysisView.checkEligibility currentYear v s)
    ∧ InspectionForm.coerceKilometres none = 0
    ∧ InspectionForm.coerceYear currentYear none = currentYear := by
  refine ⟨?_, ?_, rfl, rfl⟩
  · intro s
    cases s <;> rfl
  · intro v s
    cases s <;>
      simp [AnalysisView.checkEligibilityNum, AnalysisView.checkEligibility,
        AnalysisView.jsGtInt]

/-- An `Appraiser` identity record (`types.ts`). -/
structure Appraiser where
  id : String
  name : String
deriving DecidableEq, Repr

/-- A `Technician` identity record (`types.ts`). -/
structure Technician where
  id : String
  name : String
  techNumber : String
deriving DecidableEq, Repr

/-- A `StandardDocument` record (`types.ts`). -/
structure StandardDocument where
  id : String
  type : String
  fileName : String
  uploadDate : Int
  extractedRules : String
deriving DecidableEq, Repr

namespace StorageService

/-- The localStorage fallback of `storageService.ts`: one JSON blob per key
(`auto_audit_cases`, `appraisers`, `technicians`, `standards`,
`dealership_brand`). -/
structure LocalStore where
  cases : List InspectionCase
  appraisers : List Appraiser
  technicians : List Technician
  standards : List StandardDocument
  brand : Option String
deriving DecidableEq, Repr

/-- The Supabase tables used by the remote branch of the gateway
(`supabase_schema.sql`): `id` is the primary key of `inspection_cases`,
`appraisers` and `technicians`, `type` is unique in `standards`, `key` is the
primary key of `settings`.  ISO-8601 timestamp conversion at the boundary is
bijective on the epoch-millisecond integers and is elided. -/
structure RemoteStore where
  inspection_cases : List InspectionCase
  appraisers : List Appraiser
  technicians : List Technician
  standards : List StandardDocument
  settings : List (String × String)
deriving DecidableEq, Repr

/-- Replace the first stored case with the same `id` (the
`cases[existingIndex] = newCase` branch of the local `saveCase`). -/
def replaceCaseById : List InspectionCase → InspectionCase → List InspectionCase
  | [], _ => []
  | c :: rest, newCase =>
    if c.id = newCase.id then newCase :: rest
    else c :: replaceCaseById rest newCase

/-- The local branch of `saveCase`: linear scan by id — replace in place when
found, otherwise `unshift` (prepend). -/
def saveCaseLocal (store : LocalStore) (newCase : InspectionCase) : LocalStore :=
  if store.cases.any (fun c => c.id = newCase.id) then
    { store with cases := replaceCaseById store.cases newCase }
  else
    { store with cases := newCase :: store.cases }

/-- The local branch of `getAllCases`: returns the stored list as is — no
sorting happens on this path. -/
def getAllCasesLocal (store : LocalStore) : List InspectionCase :=
  store.cases

/-- Native upsert against the `inspection_cases` table: on id conflict the
row is replaced, otherwise it is inserted. -/
def upsertCaseById : List InspectionCase → InspectionCase → List InspectionCase
  | [], newCase => [newCase]
  | c :: rest, newCase =>
    if c.id = newCase.id then newCase :: rest
    else c :: upsertCaseById rest newCase

/-- The remote branch of `saveCase`: a Supabase `upsert` keyed by id. -/
def saveCaseRemote (store : RemoteStore) (newCase : InspectionCase) : RemoteStore :=
  { store with inspection_cases := upsertCaseById store.inspection_cases newCase }

/-- Insert into the `timestamp`-descending position (used to model the
server-side `order('timestamp', { ascending: false })`). -/
def insertTsDesc (c : InspectionCase) : List InspectionCase → List InspectionCase
  | [] => [c]
  | d :: rest =>
    if d.timestamp ≤ c.timestamp then c :: d :: rest
    else d :: insertTsDesc c rest

/-- Sort newest-first by timestamp (insertion sort; the order of equal
timestamps is unspecified by the server and immaterial here). -/
def sortTsDesc : List InspectionCase → List InspectionCase
  | [] => []
  | c :: rest => insertTsDesc c (sortTsDesc rest)

/-- The remote branch of `getAllCases`: all rows of `inspection_cases`,
ordered newest-first by timestamp on the server. -/
def getAllCasesRemote (store : RemoteStore) : List InspectionCase :=
  sortTsDesc store.inspection_cases

/-- The remote branch of `saveAppraiser`: a plain `insert` — the `id` primary
key makes inserting an existing id a duplicate-key error, which `saveAppraiser`
throws. -/
def saveAppraiserRemote (store : RemoteStore) (appraiser : Appraiser) :
    Except String RemoteStore :=
  if store.appraisers.any (fun a => a.id = appraiser.id) then
    Except.error "duplicate key value violates unique constraint"
  else
    Except.ok { store with appraisers := store.appraisers ++ [appraiser] }

/-- The remote branch of `saveTechnician`: also a plain `insert`. -/
def saveTechnicianRemote (store : RemoteStore) (tech : Technician) :
    Except String RemoteStore :=
  if store.technicians.any (fun t => t.id = tech.id) then
    Except.error "duplicate key value violates unique constraint"
  else
    Except.ok { store with technicians := store.technicians ++ [tech] }

/-- Upsert into `standards` with `onConflict: 'type'`: the row with the same
`type` is overwritten (keeping its server-generated `id`), otherwise a row is
inserted. -/
def upsertStandardByType : List StandardDocument → StandardDocument →
    List StandardDocument
  | [], doc => [doc]
  | r :: rest, doc =>
    if r.type = doc.type then { doc with id := r.id } :: rest
    else r :: upsertStandardByType rest doc

/-- The remote branch of `saveStandard`: upsert keyed by document type. -/
def saveStandardRemote (store : RemoteStore) (doc : StandardDocument) :
    RemoteStore :=
  { store with standards := upsertStandardByType store.standards doc }

/-- Upsert into `settings` keyed by `key`. -/
def upsertSetting : List (String × String) → String × String →
    List (String × String)
  | [], kv => [kv]
  | r :: rest, kv =>
    if r.1 = kv.1 then kv :: rest
    else r :: upsertSetting rest kv

/-- The remote branch of `saveBrand`: upsert of `(dealership_brand, brand)`
into `settings`. -/
def saveBrandRemote (store : RemoteStore) (brand : String) : RemoteStore :=
  { store with settings := upsertSetting store.settings ("dealership_brand", brand) }

/-- Result shape of `syncLocalToCloud`. -/
structure SyncResult where
  success : Bool
  count : Nat
deriving DecidableEq, Repr

/-- Replay a list of records sequentially through a fallible remote save,
incrementing the success count after each record and aborting on the first
error (the `try`/`catch` of `syncLocalToCloud`). -/
def runSaves {α : Type} (save : RemoteStore → α → Except String RemoteStore) :
    RemoteStore → Nat → List α → RemoteStore × Nat × Bool
  | r, n, [] => (r, n, true)
  | r, n, a :: rest =>
    match save r a with
    | Except.error _ => (r, n, false)
    | Except.ok r' => runSaves save r' (n + 1) rest

/-- `syncLocalToCloud` of `storageService.ts` with the remote store
configured: reads every entity list from the local store and replays it
against the remote store in source order — brand, appraisers, technicians,
standards, cases — accumulating a count and aborting with
`{ success: false, count }` on the first error.  Cases, standards and the
brand are replayed through upserts; appraisers and technicians through plain
inserts. -/
def syncLocalToCloud (localStore : LocalStore) (remote : RemoteStore) :
    RemoteStore × SyncResult :=
  let (r1, n1) :=
    match localStore.brand with
    | none => (remote, 0)
    | some b => (saveBrandRemote remote b, 1)
  let (r2, n2, ok2) := runSaves saveAppraiserRemote r1 n1 localStore.appraisers
  if ok2 = false then (r2, ⟨false, n2⟩) else
  let (r3, n3, ok3) := runSaves saveTechnicianRemote r2 n2 localStore.technicians
  if ok3 = false then (r3, ⟨false, n3⟩) else
  let (r4, n4, _) := runSaves
    (fun r d => Except.ok (saveStandardRemote r d)) r3 n3 localStore.standards
  let (r5, n5, _) := runSaves
    (fun r c => Except.ok (saveCaseRemote r c)) r4 n4 localStore.cases
  (r5, ⟨true, n5⟩)

end StorageService

namespace StorageService

/-- A local store holding three appraisers (and nothing else). -/
def localThreeAppraisers : LocalStore :=
  { cases := [], appraisers := [⟨"a1", "Ann"⟩, ⟨"a2", "Bob"⟩, ⟨"a3", "Cal"⟩]
  , technicians := [], standards := [], brand := none }

/-- A remote store already holding two of those appraisers (same ids). -/
def remoteTwoAppraisers : RemoteStore :=
  { inspection_cases := [], appraisers := [⟨"a1", "Ann"⟩, ⟨"a2", "Bob"⟩]
  , technicians := [], standards := [], settings := [] }

theorem upsertCaseById_idem (l : List InspectionCase) (c : InspectionCase) :
    upsertCaseById (upsertCaseById l c) c = upsertCaseById l c := by
  induction l with
  | nil => simp [upsertCaseById]
  | cons x rest ih =>
    by_cases h : x.id = c.id
    · simp [upsertCaseById, h]
    · simp [upsertCaseById, h, ih]

theorem upsertCaseById_length_mem (l : List InspectionCase) (c : InspectionCase)
    (h : l.any (fun x => x.id = c.id) = true) :
    (upsertCaseById l c).length = l.length := by
  induction l with
  | nil => simp at h
  | cons x rest ih =>
    by_cases hx : x.id = c.id
    · simp [upsertCaseById, hx]
    · simp only [List.any_cons, Bool.or_eq_true, decide_eq_true_eq] at h
      rcases h with h | h
      · exact absurd h hx
      · simp [upsertCaseById, hx, ih h]

theorem upsertStandardByType_idem (l : List StandardDocument)
    (d : StandardDocument) :
    upsertStandardByType (upsertStandardByType l d) d
      = upsertStandardByType l d := by
  induction l with
  | nil => simp [upsertStandardByType]
  | cons x rest ih =>
    by_cases h : x.type = d.type
    · simp [upsertStandardByType, h]
    · simp [upsertStandardByType, h, ih]

theorem runSaves_appraiser_dup :
    ∀ (l : List Appraiser) (r : RemoteStore) (n : Nat) (a : Appraiser),
      a ∈ l → r.appraisers.any (fun x => x.id = a.id) = true →
      (runSaves saveAppraiserRemote r n l).2.2 = false := by
  intro l
  induction l with
  | nil =>
    intro r n a ha _
    exact absurd ha (List.not_mem_nil a)
  | cons b rest ih =>
    intro r n a ha hdup
    unfold runSaves
    cases hins : r.appraisers.any (fun x => x.id = b.id) with
    | true =>
      unfold saveAppraiserRemote
      rw [if_pos hins]
    | false =>
      have hsave : saveAppraiserRemote r b
          = Except.ok { r with appraisers := r.appraisers ++ [b] } := by
        unfold saveAppraiserRemote
        rw [if_neg (by simp [hins])]
      rw [hsave]
      rcases List.mem_cons.mp ha with hab | harest
      · exfalso
        rw [hab] at hdup
        rw [hdup] at hins
        exact Bool.noConfusion hins
      · exact ih _ _ a harest (by simp [List.any_append, hdup])

end StorageService

/-- Counterexample to C6: with three local appraisers of which two already
exist remotely under the same ids, `syncLocalToCloud` does not succeed — the
very first appraiser replay is a plain `insert` that hits the duplicate id,
the sync aborts with `success: false`, and the remote store still holds two
appraisers, not three. -/
theorem C6_counterexample :
    (StorageService.syncLocalToCloud StorageService.localThreeAppraisers
        StorageService.remoteTwoAppraisers).2.success = false
    ∧ (StorageService.syncLocalToCloud StorageService.localThreeAppraisers
        StorageService.remoteTwoAppraisers).1.appraisers.length = 2
    ∧ (StorageService.syncLocalToCloud StorageService.localThreeAppraisers
        StorageService.remoteTwoAppraisers).2.count = 0 := by
  refine ⟨rfl, rfl, rfl⟩

/-- C6 as amended: `syncLocalToCloud` replays cases, standards and the brand
as upserts (so re-applying an already-applied record is non-destructive, as
shown by idempotence and length preservation), but appraisers and technicians
are replayed as plain inserts: re-inserting an existing appraiser id is a
duplicate-key error, and a sync whose local store holds any appraiser whose id
already exists remotely aborts with `success: false`. -/
theorem C6_sync_upsert_vs_insert :
    (∀ (r : StorageService.RemoteStore) (c : InspectionCase),
        StorageService.saveCaseRemote (StorageService.saveCaseRemote r c) c
          = StorageService.saveCaseRemote r c)
    ∧ (∀ (r : StorageService.RemoteStore) (c : InspectionCase),
        r.inspection_cases.any (fun x => x.id = c.id) = true →
        (StorageService.saveCaseRemote r c).inspection_cases.length
          = r.inspection_cases.length)
    ∧ (∀ (r : StorageService.RemoteStore) (d : StandardDocument),
        StorageService.saveStandardRemote (StorageService.saveStandardRemote r d) d
          = StorageService.saveStandardRemote r d)
    ∧ (∀ (r : StorageService.RemoteStore) (a : Appraiser),
        r.appraisers.any (fun x => x.id = a.id) = true →
        StorageService.saveAppraiserRemote r a
          = Except.error "duplicate key value violates unique constraint")
    ∧ (∀ (lc : StorageService.LocalStore) (r : StorageService.RemoteStore)
          (a : Appraiser),
        a ∈ lc.appraisers →
        r.appraisers.any (fun x => x.id = a.id) = true →
        (StorageService.syncLocalToCloud lc r).2.success = false) := by
  refine ⟨?_, ?_, ?_, ?_, ?_⟩
  · intro r c
    simp [StorageService.saveCaseRemote, StorageService.upsertCaseById_idem]
  · intro r c h
    exact StorageService.upsertCaseById_length_mem r.inspection_cases c h
  · intro r d
    simp [StorageService.saveStandardRemote, StorageService.upsertStandardByType_idem]
  · intro r a h
    unfold StorageService.saveAppraiserRemote
    rw [if_pos h]
  · intro lc r a ha hdup
    unfold StorageService.syncLocalToCloud
    cases hb : lc.brand with
    | none =>
      have h2 : (StorageService.runSaves StorageService.saveAppraiserRemote
          r 0 lc.appraisers).2.2 = false :=
        StorageService.runSaves_appraiser_dup lc.appraisers r 0 a ha hdup
      simp only [h2, if_pos]
    | some b =>
      have h2 : (StorageService.runSaves StorageService.saveAppraiserRemote
          (StorageService.saveBrandRemote r b) 1 lc.appraisers).2.2 = false :=
        StorageService.runSaves_appraiser_dup lc.appraisers _ 1 a ha hdup
      simp only [h2, if_pos]

/-- Witness for the amended C6 at concrete inputs: re-applying a case upsert
is idempotent, and the three-vs-two appraiser sync aborts with failure. -/
theorem C6_sync_upsert_vs_insert_witness :
    StorageService.saveCaseRemote
        (StorageService.saveCaseRemote StorageService.remoteTwoAppraisers sampleCase)
        sampleCase
      = StorageService.saveCaseRemote StorageService.remoteTwoAppraisers sampleCase
    ∧ (StorageService.syncLocalToCloud StorageService.localThreeAppraisers
        StorageService.remoteTwoAppraisers).2.success = false :=
  ⟨C6_sync_upsert_vs_insert.1 StorageService.remoteTwoAppraisers sampleCase,
   C6_sync_upsert_vs_insert.2.2.2.2 StorageService.localThreeAppraisers
     StorageService.remoteTwoAppraisers ⟨"a1", "Ann"⟩ (by decide) (by decide)⟩

namespace StorageService

/-- Newest-first: the left case is at least as recent as the right one. -/
def tsGe (a b : InspectionCase) : Prop := b.timestamp ≤ a.timestamp

instance (a b : InspectionCase) : Decidable (tsGe a b) :=
  inferInstanceAs (Decidable (b.timestamp ≤ a.timestamp))

theorem mem_insertTsDesc {x c : InspectionCase} :
    ∀ {l : List InspectionCase}, x ∈ insertTsDesc c l → x = c ∨ x ∈ l := by
  intro l
  induction l with
  | nil =>
    intro hx
    simpa [insertTsDesc] using hx
  | cons d rest ih =>
    intro hx
    unfold insertTsDesc at hx
    by_cases hd : d.timestamp ≤ c.timestamp
    · rw [if_pos hd] at hx
      rcases List.mem_cons.mp hx with h | h
      · exact Or.inl h
      · exact Or.inr h
    · rw [if_neg hd] at hx
      rcases List.mem_cons.mp hx with h | h
      · exact Or.inr (by rw [h]; exact List.mem_cons_self d rest)
      · rcases ih h with h' | h'
        · exact Or.inl h'
        · exact Or.inr (List.mem_cons_of_mem d h')

theorem pairwise_insertTsDesc (c : InspectionCase) :
    ∀ (l : List InspectionCase), List.Pairwise tsGe l →
      List.Pairwise tsGe (insertTsDesc c l) := by
  intro l
  induction l with
  | nil =>
    intro _
    simp [insertTsDesc, List.Pairwise]
  | cons d rest ih =>
    intro hp
    rcases List.pairwise_cons.mp hp with ⟨hd_rest, hrest⟩
    unfold insertTsDesc
    by_cases hd : d.timestamp ≤ c.timestamp
    · rw [if_pos hd]
      refine List.Pairwise.cons ?_ hp
      intro y hy
      rcases List.mem_cons.mp hy with h | h
      · rw [h]; exact hd
      · exact le_trans (hd_rest y h) hd
    · rw [if_neg hd]
      refine List.Pairwise.cons ?_ (ih hrest)
      intro y hy
      rcases mem_insertTsDesc hy with h | h
      · rw [h]
        exact le_of_not_le hd
      · exact hd_rest y h

theorem pairwise_sortTsDesc (l : List InspectionCase) :
    List.Pairwise tsGe (sortTsDesc l) := by
  induction l with
  | nil => simp [sortTsDesc]
  | cons c rest ih => exact pairwise_insertTsDesc c _ ih

theorem perm_insertTsDesc (c : InspectionCase) :
    ∀ (l : List InspectionCase), (insertTsDesc c l).Perm (c :: l) := by
  intro l
  induction l with
  | nil => simp [insertTsDesc]
  | cons d rest ih =>
    unfold insertTsDesc
    by_cases hd : d.timestamp ≤ c.timestamp
    · rw [if_pos hd]
    · rw [if_neg hd]
      exact (ih.cons d).trans (List.Perm.swap c d rest)

theorem perm_sortTsDesc (l : List InspectionCase) :
    (sortTsDesc l).Perm l := by
  induction l with
  | nil => simp [sortTsDesc]
  | cons c rest ih =>
    exact (perm_insertTsDesc c _).trans (ih.cons c)

theorem mem_replaceCaseById {x c : InspectionCase} :
    ∀ {l : List InspectionCase}, x ∈ replaceCaseById l c →
      x ∈ l ∨ (x = c ∧ ∃ y ∈ l, y.id = c.id) := by
  intro l
  induction l with
  | nil =>
    intro hx
    simp [replaceCaseById] at hx
  | cons d rest ih =>
    intro hx
    unfold replaceCaseById at hx
    by_cases hd : d.id = c.id
    · rw [if_pos hd] at hx
      rcases List.mem_cons.mp hx with h | h
      · exact Or.inr ⟨h, d, List.mem_cons_self d rest, hd⟩
      · exact Or.inl (List.mem_cons_of_mem d h)
    · rw [if_neg hd] at hx
      rcases List.mem_cons.mp hx with h | h
      · exact Or.inl (by rw [h]; exact List.mem_cons_self d rest)
      · rcases ih h with h' | ⟨hxc, y, hy, hyid⟩
        · exact Or.inl (List.mem_cons_of_mem d h')
        · exact Or.inr ⟨hxc, y, List.mem_cons_of_mem d hy, hyid⟩

theorem pairwise_replaceCaseById (c : InspectionCase) :
    ∀ (l : List InspectionCase), List.Pairwise tsGe l →
      (∀ x ∈ l, x.id = c.id → x.timestamp = c.timestamp) →
      List.Pairwise tsGe (replaceCaseById l c) := by
  intro l
  induction l with
  | nil =>
    intro _ _
    simp [replaceCaseById, List.Pairwise]
  | cons d rest ih =>
    intro hp hts
    rcases List.pairwise_cons.mp hp with ⟨hd_rest, hrest⟩
    unfold replaceCaseById
    by_cases hd : d.id = c.id
    · rw [if_pos hd]
      refine List.Pairwise.cons ?_ hrest
      intro y hy
      have : d.timestamp = c.timestamp :=
        hts d (List.mem_cons_self d rest) hd
      show y.timestamp ≤ c.timestamp
      rw [← this]
      exact hd_rest y hy
    · rw [if_neg hd]
      refine List.Pairwise.cons ?_ ?_
      · intro y hy
        rcases mem_replaceCaseById hy with h | ⟨hyc, z, hz, hzid⟩
        · exact hd_rest y h
        · have hzts : z.timestamp = c.timestamp :=
            hts z (List.mem_cons_of_mem d hz) hzid
          show y.timestamp ≤ d.timestamp
          rw [hyc, ← hzts]
          exact hd_rest z hz
      · exact ih hrest (fun x hx hxid =>
          hts x (List.mem_cons_of_mem d hx) hxid)

/-- The empty local store. -/
def emptyLocalStore : LocalStore :=
  { cases := [], appraisers := [], technicians := [], standards := []
  , brand := none }

/-- A case with timestamp 1. -/
def caseTsOne : InspectionCase :=
  { sampleCase with id := "older", timestamp := 1 }

/-- A case with timestamp 2. -/
def caseTsTwo : InspectionCase :=
  { sampleCase with id := "newer", timestamp := 2 }

/-- The local store obtained by saving the timestamp-2 case first and the
timestamp-1 case second. -/
def localOutOfOrder : LocalStore :=
  saveCaseLocal (saveCaseLocal emptyLocalStore caseTsTwo) caseTsOne

end StorageService

/-- Counterexample to C7: the local fallback `getAllCases` performs no sorting
at all — it returns the stored list.  Saving a timestamp-2 case and then a
timestamp-1 case (both new ids, so both are prepended) leaves the store as
[timestamp 1, timestamp 2]: the first returned case is older than the second,
so the result is not ordered newest-first. -/
theorem C7_counterexample :
    StorageService.getAllCasesLocal StorageService.localOutOfOrder
      = [StorageService.caseTsOne, StorageService.caseTsTwo]
    ∧ StorageService.caseTsOne.timestamp < StorageService.caseTsTwo.timestamp
    ∧ ¬ List.Pairwise StorageService.tsGe
        (StorageService.getAllCasesLocal StorageService.localOutOfOrder) := by
  refine ⟨rfl, by decide, ?_⟩
  intro hp
  have h := List.rel_of_pairwise_cons hp
    (List.mem_cons_self StorageService.caseTsTwo [])
  exact absurd h (by decide)

/-- C7 as amended: under the remote store `getAllCases` returns all stored
cases (a permutation of the table) ordered newest-first by timestamp, for
every store state; under the local fallback it returns the stored list as is
(new cases prepended, updates replaced in place, no sorting), so the
newest-first order holds only when each newly saved case carries a timestamp
at least as large as everything already stored and updates do not change the
timestamp — both preservation facts are proved; out-of-order saves violate the
order, as the counterexample shows. -/
theorem C7_newest_first (r : StorageService.RemoteStore)
    (s : StorageService.LocalStore) (c : InspectionCase) :
    List.Pairwise StorageService.tsGe (StorageService.getAllCasesRemote r)
    ∧ (StorageService.getAllCasesRemote r).Perm r.inspection_cases
    ∧ StorageService.getAllCasesLocal s = s.cases
    ∧ (List.Pairwise StorageService.tsGe s.cases →
        (∀ x ∈ s.cases, x.id ≠ c.id) →
        (∀ x ∈ s.cases, x.timestamp ≤ c.timestamp) →
        List.Pairwise StorageService.tsGe (StorageService.saveCaseLocal s c).cases)
    ∧ (List.Pairwise StorageService.tsGe s.cases →
        s.cases.any (fun x => x.id = c.id) = true →
        (∀ x ∈ s.cases, x.id = c.id → x.timestamp = c.timestamp) →
        List.Pairwise StorageService.tsGe (StorageService.saveCaseLocal s c).cases) := by
  refine ⟨StorageService.pairwise_sortTsDesc _, StorageService.perm_sortTsDesc _,
    rfl, ?_, ?_⟩
  · intro hp hfresh hts
    have hany : s.cases.any (fun x => x.id = c.id) = false := by
      rw [List.any_eq_false]
      intro x hx
      simp [hfresh x hx]
    unfold StorageService.saveCaseLocal
    rw [hany]
    simp only [Bool.false_eq_true, if_false]
    exact List.Pairwise.cons (fun y hy => hts y hy) hp
  · intro hp hany hts
    unfold StorageService.saveCaseLocal
    rw [hany]
    simp only [if_true]
    exact StorageService.pairwise_replaceCaseById c s.cases hp hts

/-- Witness for the amended C7: the remote ordering facts on a concrete store
and the fresh-save preservation step on a concrete sorted local store. -/
theorem C7_newest_first_witness :
    List.Pairwise StorageService.tsGe
      (StorageService.getAllCasesRemote
        { inspection_cases := [StorageService.caseTsOne, StorageService.caseTsTwo]
        , appraisers := [], technicians := [], standards := [], settings := [] })
    ∧ List.Pairwise StorageService.tsGe
      (StorageService.saveCaseLocal StorageService.emptyLocalStore
        StorageService.caseTsTwo).cases :=
  ⟨(C7_newest_first
      { inspection_cases := [StorageService.caseTsOne, StorageService.caseTsTwo]
      , appraisers := [], technicians := [], standards := [], settings := [] }
      StorageService.emptyLocalStore StorageService.caseTsTwo).1,
   (C7_newest_first
      { inspection_cases := [StorageService.caseTsOne, StorageService.caseTsTwo]
      , appraisers := [], technicians := [], standards := [], settings := [] }
      StorageService.emptyLocalStore StorageService.caseTsTwo).2.2.2.1
     (by simp [StorageService.emptyLocalStore])
     (by simp [StorageService.emptyLocalStore])
     (by simp [StorageService.emptyLocalStore])⟩

/-- The `PerformanceStats` record from `types.ts` (the reliability tag is one
of the strings 'Aggressive', 'Accurate', 'Passive'). -/
structure PerformanceStats where
  technicianName : String
  appraiserName : String
  totalCases : Nat
  avgVariance : ℚ
  accuracyRating : ℚ
  reliabilityTag : String
deriving DecidableEq, Repr

namespace StorageService

/-- The per-case variance used by `getTechnicianProfiles`:
`(serviceDepartmentEstimate || 0) - (managerAppraisalEstimate || 0)` — a
missing estimate counts as 0. -/
def caseVariance (c : InspectionCase) : ℚ :=
  c.data.serviceDepartmentEstimate.getD 0 - c.data.managerAppraisalEstimate.getD 0

/-- One `techMap.set` step: add a variance observation for `name`, updating
the existing entry in place (JS `Map` keeps insertion order) or appending a
fresh `(name, variance, count 1)` entry.  The `total` field of the source's
accumulator is never written after initialisation and is dropped. -/
def updateAcc : List (String × ℚ × Nat) → String → ℚ → List (String × ℚ × Nat)
  | [], name, v => [(name, v, 1)]
  | (n, s, k) :: rest, name, v =>
    if n = name then (n, s + v, k + 1) :: rest
    else (n, s, k) :: updateAcc rest name v

/-- The `cases.forEach` accumulation of `getTechnicianProfiles`: cases whose
`technicianName` is empty (falsy) are skipped. -/
def techFold : List (String × ℚ × Nat) → List InspectionCase →
    List (String × ℚ × Nat)
  | m, [] => m
  | m, c :: rest =>
    if c.data.technicianName = "" then techFold m rest
    else techFold (updateAcc m c.data.technicianName (caseVariance c)) rest

/-- The per-technician projection of `getTechnicianProfiles`:
`avgVariance = variance / count`, bounded accuracy
`max(0, 100 - abs(avgVariance)/100)`, and the threshold tag
(`> 1500` Aggressive, `< -500` Passive, otherwise Accurate). -/
def mkProfile : String × ℚ × Nat → PerformanceStats
  | (name, varianceSum, count) =>
    let avgVariance := varianceSum / (count : ℚ)
    let tag :=
      if avgVariance > 1500 then "Aggressive"
      else if avgVariance < -500 then "Passive"
      else "Accurate"
    { technicianName := name, appraiserName := ""
    , totalCases := count, avgVariance := avgVariance
    , accuracyRating := max 0 (100 - |avgVariance| / 100)
    , reliabilityTag := tag }

/-- `getTechnicianProfiles` of `storageService.ts` as a pure reduction over a
case collection. -/
def getTechnicianProfiles (cases : List InspectionCase) : List PerformanceStats :=
  (techFold [] cases).map mkProfile

/-- First entry for key `t` in the accumulator. -/
def assocFind (t : String) : List (String × ℚ × Nat) → Option (ℚ × Nat)
  | [] => none
  | (n, s, k) :: rest => if n = t then some (s, k) else assocFind t rest

end StorageService

namespace StorageService

theorem assocFind_updateAcc_eq (t : String) (v : ℚ) :
    ∀ (m : List (String × ℚ × Nat)),
      assocFind t (updateAcc m t v) =
        match assocFind t m with
        | some (s, k) => some (s + v, k + 1)
        | none => some (v, 1) := by
  intro m
  induction m with
  | nil => simp [updateAcc, assocFind]
  | cons e rest ih =>
    obtain ⟨n, s, k⟩ := e
    by_cases hn : n = t
    · subst hn
      simp [updateAcc, assocFind]
    · simp [updateAcc, assocFind, hn, ih]

theorem assocFind_updateAcc_ne (t u : String) (v : ℚ) (hu : ¬ u = t) :
    ∀ (m : List (String × ℚ × Nat)),
      assocFind t (updateAcc m u v) = assocFind t m := by
  intro m
  induction m with
  | nil => simp [updateAcc, assocFind, hu]
  | cons e rest ih =>
    obtain ⟨n, s, k⟩ := e
    by_cases hn : n = u
    · subst hn
      simp [updateAcc, assocFind, hu]
    · by_cases hnt : n = t
      · subst hnt
        simp [updateAcc, assocFind, hn]
      · simp [updateAcc, assocFind, hn, hnt, ih]

theorem assocFind_some_mem (t : String) :
    ∀ (m : List (String × ℚ × Nat)) (y : ℚ × Nat),
      assocFind t m = some y → ∃ e ∈ m, e.1 = t ∧ e.2 = y := by
  intro m
  induction m with
  | nil =>
    intro y h
    simp [assocFind] at h
  | cons e rest ih =>
    obtain ⟨n, s, k⟩ := e
    intro y h
    by_cases hn : n = t
    · subst hn
      simp [assocFind] at h
      exact ⟨(n, s, k), List.mem_cons_self _ _, rfl, h⟩
    · rw [assocFind, if_neg hn] at h
      obtain ⟨e', he', ht', hy'⟩ := ih y h
      exact ⟨e', List.mem_cons_of_mem _ he', ht', hy'⟩

theorem updateAcc_key_pred (P : String → Prop) (u : String) (v : ℚ)
    (hu : P u) :
    ∀ (m : List (String × ℚ × Nat)), (∀ e ∈ m, P e.1) →
      ∀ e ∈ updateAcc m u v, P e.1 := by
  intro m
  induction m with
  | nil =>
    intro _ e he
    simp [updateAcc] at he
    rw [he]
    exact hu
  | cons x rest ih =>
    obtain ⟨n, s, k⟩ := x
    intro hm e he
    by_cases hn : n = u
    · rw [updateAcc, if_pos hn] at he
      rcases List.mem_cons.mp he with h | h
      · rw [h]
        exact hm (n, s, k) (List.mem_cons_self _ _)
      · exact hm e (List.mem_cons_of_mem _ h)
    · rw [updateAcc, if_neg hn] at he
      rcases List.mem_cons.mp he with h | h
      · rw [h]
        exact hm (n, s, k) (List.mem_cons_self _ _)
      · exact ih (fun e' he' => hm e' (List.mem_cons_of_mem _ he')) e h

theorem techFold_key_pred (P : String → Prop) :
    ∀ (cs : List InspectionCase) (m : List (String × ℚ × Nat)),
      (∀ e ∈ m, P e.1) →
      (∀ c ∈ cs, ¬ c.data.technicianName = "" → P c.data.technicianName) →
      ∀ e ∈ techFold m cs, P e.1 := by
  intro cs
  induction cs with
  | nil =>
    intro m hm _ e he
    exact hm e he
  | cons c rest ih =>
    intro m hm hcs e he
    by_cases hc : c.data.technicianName = ""
    · rw [techFold, if_pos hc] at he
      exact ih m hm (fun c' hc' => hcs c' (List.mem_cons_of_mem _ hc')) e he
    · rw [techFold, if_neg hc] at he
      exact ih _
        (updateAcc_key_pred P _ _ (hcs c (List.mem_cons_self _ _) hc) m hm)
        (fun c' hc' => hcs c' (List.mem_cons_of_mem _ hc')) e he

theorem keys_updateAcc (u : String) (v : ℚ) :
    ∀ (m : List (String × ℚ × Nat)),
      (updateAcc m u v).map (fun e => e.1) =
        if u ∈ m.map (fun e => e.1) then m.map (fun e => e.1)
        else m.map (fun e => e.1) ++ [u] := by
  intro m
  induction m with
  | nil => simp [updateAcc]
  | cons x rest ih =>
    obtain ⟨n, s, k⟩ := x
    by_cases hn : n = u
    · subst hn
      simp [updateAcc]
    · by_cases hu : u ∈ rest.map (fun e => e.1)
      · simp only [updateAcc, if_neg hn, List.map_cons, ih, if_pos hu]
        rw [if_pos (by simp [hu])]
      · simp only [updateAcc, if_neg hn, List.map_cons, ih, if_neg hu]
        rw [if_neg (by simp [hu, Ne.symm hn])]
        simp

theorem keys_nodup_updateAcc (u : String) (v : ℚ)
    (m : List (String × ℚ × Nat))
    (h : (m.map (fun e => e.1)).Nodup) :
    ((updateAcc m u v).map (fun e => e.1)).Nodup := by
  rw [keys_updateAcc]
  by_cases hu : u ∈ m.map (fun e => e.1)
  · rw [if_pos hu]
    exact h
  · rw [if_neg hu]
    simp [List.nodup_append, h, hu]

theorem keys_nodup_techFold :
    ∀ (cs : List InspectionCase) (m : List (String × ℚ × Nat)),
      (m.map (fun e => e.1)).Nodup →
      ((techFold m cs).map (fun e => e.1)).Nodup := by
  intro cs
  induction cs with
  | nil =>
    intro m hm
    exact hm
  | cons c rest ih =>
    intro m hm
    by_cases hc : c.data.technicianName = ""
    · rw [techFold, if_pos hc]
      exact ih m hm
    · rw [techFold, if_neg hc]
      exact ih _ (keys_nodup_updateAcc _ _ m hm)

theorem assocFind_of_mem_nodup (t : String) :
    ∀ (m : List (String × ℚ × Nat)), (m.map (fun e => e.1)).Nodup →
      ∀ e ∈ m, e.1 = t → assocFind t m = some e.2 := by
  intro m
  induction m with
  | nil =>
    intro _ e he
    simp at he
  | cons x rest ih =>
    obtain ⟨n, s, k⟩ := x
    intro hnd e he het
    rcases List.mem_cons.mp he with h | h
    · rw [h] at het ⊢
      rw [assocFind, if_pos het]
    · have hn : ¬ n = t := by
        intro hnt
        have : e.1 ∈ rest.map (fun e => e.1) := List.mem_map_of_mem _ h
        rw [het, ← hnt] at this
        simp only [List.map_cons, List.nodup_cons] at hnd
        exact hnd.1 this
      rw [assocFind, if_neg hn]
      exact ih (by simp only [List.map_cons, List.nodup_cons] at hnd; exact hnd.2)
        e h het

end StorageService

namespace StorageService

theorem assocFind_techFold (t : String) (ht : ¬ t = "") :
    ∀ (cs : List InspectionCase) (m : List (String × ℚ × Nat)),
      assocFind t (techFold m cs) =
        match assocFind t m with
        | some (s, k) =>
            some (s + ((cs.filter fun c => c.data.technicianName = t).map
                    caseVariance).sum,
                  k + (cs.filter fun c => c.data.technicianName = t).length)
        | none =>
            if (cs.filter fun c => c.data.technicianName = t).length = 0 then
              none
            else
              some (((cs.filter fun c => c.data.technicianName = t).map
                      caseVariance).sum,
                    (cs.filter fun c => c.data.technicianName = t).length) := by
  intro cs
  induction cs with
  | nil =>
    intro m
    cases hm : assocFind t m with
    | none => simp [techFold, hm]
    | some y =>
      obtain ⟨s, k⟩ := y
      simp [techFold, hm]
  | cons c rest ih =>
    intro m
    by_cases hct : c.data.technicianName = t
    · have hc0 : ¬ c.data.technicianName = "" := by rw [hct]; exact ht
      rw [techFold, if_neg hc0, ih (updateAcc m c.data.technicianName (caseVariance c)),
        hct, assocFind_updateAcc_eq t (caseVariance c) m,
        List.filter_cons_of_pos (by simp [hct])]
      cases hm : assocFind t m with
      | none =>
        simp only []
        rw [if_neg (by simp)]
        simp only [List.map_cons, List.sum_cons, List.length_cons,
          Option.some.injEq, Prod.mk.injEq]
        exact ⟨trivial, by omega⟩
      | some y =>
        obtain ⟨s, k⟩ := y
        simp only [List.map_cons, List.sum_cons, List.length_cons,
          Option.some.injEq, Prod.mk.injEq]
        constructor
        · ring
        · omega
    · by_cases hc0 : c.data.technicianName = ""
      · rw [techFold, if_pos hc0, ih m,
          List.filter_cons_of_neg (by simp [hct])]
      · rw [techFold, if_neg hc0,
          ih (updateAcc m c.data.technicianName (caseVariance c)),
          assocFind_updateAcc_ne t _ (caseVariance c) hct,
          List.filter_cons_of_neg (by simp [hct])]

end StorageService


namespace StorageService

theorem mkProfile_tag_iff (e : String × ℚ × Nat) :
    ((mkProfile e).reliabilityTag = "Aggressive" ↔ (mkProfile e).avgVariance > 1500)
    ∧ ((mkProfile e).reliabilityTag = "Passive" ↔ (mkProfile e).avgVariance < -500)
    ∧ ((mkProfile e).reliabilityTag = "Accurate" ↔
        (-500 ≤ (mkProfile e).avgVariance ∧ (mkProfile e).avgVariance ≤ 1500)) := by
  obtain ⟨n, s, k⟩ := e
  have havg : (mkProfile (n, s, k)).avgVariance = s / (k : ℚ) := rfl
  have htag : (mkProfile (n, s, k)).reliabilityTag =
      (if s / (k : ℚ) > 1500 then "Aggressive"
       else if s / (k : ℚ) < -500 then "Passive" else "Accurate") := rfl
  rw [havg, htag]
  by_cases h1 : s / (k : ℚ) > 1500
  · rw [if_pos h1]
    refine ⟨⟨fun _ => h1, fun _ => rfl⟩, ⟨?_, ?_⟩, ⟨?_, ?_⟩⟩
    · intro h
      exact absurd h (by decide)
    · intro h
      exact absurd h1 (by linarith)
    · intro h
      exact absurd h (by decide)
    · rintro ⟨ha, hb⟩
      exact absurd h1 (by linarith)
  · rw [if_neg h1]
    by_cases h2 : s / (k : ℚ) < -500
    · rw [if_pos h2]
      refine ⟨⟨?_, ?_⟩, ⟨fun _ => h2, fun _ => rfl⟩, ⟨?_, ?_⟩⟩
      · intro h
        exact absurd h (by decide)
      · intro h
        exact absurd h (by linarith)
      · intro h
        exact absurd h (by decide)
      · rintro ⟨ha, hb⟩
        exact absurd h2 (by linarith)
    · rw [if_neg h2]
      refine ⟨⟨?_, ?_⟩, ⟨?_, ?_⟩, ⟨?_, fun _ => rfl⟩⟩
      · intro h
        exact absurd h (by decide)
      · intro h
        exact absurd h h1
      · intro h
        exact absurd h (by decide)
      · intro h
        exact absurd h h2
      · intro _
        exact ⟨le_of_not_lt h2, le_of_not_lt h1⟩

end StorageService

/-- A case for technician "Alex" with service estimate 1500 and manager
estimate 0: its singleton average variance is exactly 1500. -/
def demoCase1500 : InspectionCase :=
  { sampleCase with
      id := "d1500",
      data := { sampleData with
                  serviceDepartmentEstimate := some 1500,
                  managerAppraisalEstimate := some 0 } }

/-- A case for technician "Alex" with service estimate 1501 and manager
estimate 0: its singleton average variance is exactly 1501. -/
def demoCase1501 : InspectionCase :=
  { sampleCase with
      id := "d1501",
      data := { sampleData with
                  serviceDepartmentEstimate := some 1501,
                  managerAppraisalEstimate := some 0 } }

/-- C8: `getTechnicianProfiles` groups exactly the cases carrying a non-empty
technician name (no profile has an empty name; a profile for `t` exists iff
some case names `t`); the profile for `t` counts exactly the cases naming
`t`, its average variance is the mean of service minus manager estimate with
a missing estimate counted as 0, its accuracy score is
`max 0 (100 - |avg| / 100)`, and the reliability tag is 'Aggressive' iff
`avg > 1500`, 'Passive' iff `avg < -500`, and 'Accurate' otherwise; at the
boundary an average of exactly 1500 is 'Accurate' and 1501 is 'Aggressive'. -/
theorem C8_technician_profiles (cases : List InspectionCase) (t : String)
    (ht : ¬ t = "") :
    (∀ p ∈ StorageService.getTechnicianProfiles cases, ¬ p.technicianName = "")
    ∧ ((∃ p ∈ StorageService.getTechnicianProfiles cases, p.technicianName = t)
        ↔ ¬ (cases.filter fun c => c.data.technicianName = t) = [])
    ∧ (∀ p ∈ StorageService.getTechnicianProfiles cases, p.technicianName = t →
        p.totalCases = (cases.filter fun c => c.data.technicianName = t).length
        ∧ p.avgVariance = ((cases.filter fun c => c.data.technicianName = t).map
              StorageService.caseVariance).sum
            / ((cases.filter fun c => c.data.technicianName = t).length : ℚ)
        ∧ p.accuracyRating = max 0 (100 - |p.avgVariance| / 100)
        ∧ (p.reliabilityTag = "Aggressive" ↔ p.avgVariance > 1500)
        ∧ (p.reliabilityTag = "Passive" ↔ p.avgVariance < -500)
        ∧ (p.reliabilityTag = "Accurate"
            ↔ (-500 ≤ p.avgVariance ∧ p.avgVariance ≤ 1500)))
    ∧ (StorageService.getTechnicianProfiles [demoCase1500]).map
        (fun p => p.reliabilityTag) = ["Accurate"]
    ∧ (StorageService.getTechnicianProfiles [demoCase1501]).map
        (fun p => p.reliabilityTag) = ["Aggressive"] := by
  have hnodup := StorageService.keys_nodup_techFold cases [] (by simp)
  refine ⟨?_, ⟨?_, ?_⟩, ?_, ?_, ?_⟩
  · intro p hp
    rw [StorageService.getTechnicianProfiles] at hp
    obtain ⟨e, he, hpe⟩ := List.mem_map.mp hp
    have hkey := StorageService.techFold_key_pred (fun n => ¬ n = "") cases []
      (by intro e' he'; simp at he') (fun c _ hc => hc) e he
    rw [← hpe]
    obtain ⟨n, s, k⟩ := e
    exact hkey
  · rintro ⟨p, hp, hpt⟩ hempty
    rw [StorageService.getTechnicianProfiles] at hp
    obtain ⟨e, he, hpe⟩ := List.mem_map.mp hp
    obtain ⟨n, s, k⟩ := e
    have hname : n = t := by rw [← hpt, ← hpe]; rfl
    have hfind := StorageService.assocFind_of_mem_nodup t _ hnodup _ he hname
    rw [StorageService.assocFind_techFold t ht cases []] at hfind
    simp only [StorageService.assocFind] at hfind
    rw [hempty] at hfind
    simp at hfind
  · intro hne
    have hlen : ¬ (cases.filter fun c => c.data.technicianName = t).length = 0 := by
      intro h0
      exact hne (List.length_eq_zero.mp h0)
    have hfind : StorageService.assocFind t (StorageService.techFold [] cases)
        = some (((cases.filter fun c => c.data.technicianName = t).map
              StorageService.caseVariance).sum,
            (cases.filter fun c => c.data.technicianName = t).length) := by
      rw [StorageService.assocFind_techFold t ht cases []]
      simp only [StorageService.assocFind]
      rw [if_neg hlen]
    obtain ⟨e, he, het, _⟩ := StorageService.assocFind_some_mem t _ _ hfind
    refine ⟨StorageService.mkProfile e, List.mem_map_of_mem _ he, ?_⟩
    obtain ⟨n, s, k⟩ := e
    exact het
  · intro p hp hpt
    rw [StorageService.getTechnicianProfiles] at hp
    obtain ⟨e, he, hpe⟩ := List.mem_map.mp hp
    obtain ⟨n, s, k⟩ := e
    have hname : n = t := by rw [← hpt, ← hpe]; rfl
    have hfind := StorageService.assocFind_of_mem_nodup t _ hnodup _ he hname
    rw [StorageService.assocFind_techFold t ht cases []] at hfind
    simp only [StorageService.assocFind] at hfind
    by_cases hlen : (cases.filter fun c => c.data.technicianName = t).length = 0
    · rw [if_pos hlen] at hfind
      exact absurd hfind (by simp)
    · rw [if_neg hlen] at hfind
      simp only [Option.some.injEq, Prod.mk.injEq] at hfind
      obtain ⟨hs, hk⟩ := hfind
      subst hname
      rw [← hpe]
      obtain ⟨iff1, iff2, iff3⟩ := StorageService.mkProfile_tag_iff (n, s, k)
      refine ⟨hk.symm, ?_, rfl, iff1, iff2, iff3⟩
      show s / (k : ℚ) = _
      rw [← hs, ← hk]
  · norm_num [StorageService.getTechnicianProfiles, StorageService.techFold,
      StorageService.updateAcc, StorageService.caseVariance,
      demoCase1500, sampleData, sampleCase]
    rw [if_neg (by decide)]
    norm_num [StorageService.mkProfile]
  · norm_num [StorageService.getTechnicianProfiles, StorageService.techFold,
      StorageService.updateAcc, StorageService.caseVariance,
      demoCase1501, sampleData, sampleCase]
    rw [if_neg (by decide)]
    norm_num [StorageService.mkProfile]

/-- A case for technician "Alex" with estimates (1000, 800). -/
def demoCaseA : InspectionCase :=
  { sampleCase with
      id := "dA",
      data := { sampleData with
                  serviceDepartmentEstimate := some 1000,
                  managerAppraisalEstimate := some 800 } }

/-- A case for technician "Alex" with estimates (2000, 0). -/
def demoCaseB : InspectionCase :=
  { sampleCase with
      id := "dB",
      data := { sampleData with
                  serviceDepartmentEstimate := some 2000,
                  managerAppraisalEstimate := some 0 } }

/-- Witness for C8 at a concrete collection: technician "Alex" with estimate
pairs (1000, 800) and (2000, 0) gets a profile, and the 1500/1501 boundary
evaluations from the claim theorem. -/
theorem C8_technician_profiles_witness :
    ((∃ p ∈ StorageService.getTechnicianProfiles [demoCaseA, demoCaseB],
        p.technicianName = "Alex")
      ↔ ¬ ([demoCaseA, demoCaseB].filter
            fun c => c.data.technicianName = "Alex") = [])
    ∧ (StorageService.getTechnicianProfiles [demoCase1500]).map
        (fun p => p.reliabilityTag) = ["Accurate"]
    ∧ (StorageService.getTechnicianProfiles [demoCase1501]).map
        (fun p => p.reliabilityTag) = ["Aggressive"] :=
  ⟨(C8_technician_profiles [demoCaseA, demoCaseB] "Alex" (by decide)).2.1,
   (C8_technician_profiles [demoCaseA, demoCaseB] "Alex" (by decide)).2.2.2.1,
   (C8_technician_profiles [demoCaseA, demoCaseB] "Alex" (by decide)).2.2.2.2⟩

namespace GeminiService

/-- The literal head of the marker regex `\[DETECTED_TOTAL:`. -/
def markerLit : List Char := "[DETECTED_TOTAL:".toList

/-- Membership in the regex character class `[\d,.]`. -/
def isTokenChar (c : Char) : Bool := c.isDigit || c = ',' || c = '.'

/-- Strip an expected literal from the front of the input. -/
def stripLit : List Char → List Char → Option (List Char)
  | [], s => some s
  | _ :: _, [] => none
  | l :: ls, c :: cs => if c = l then stripLit ls cs else none

/-- Match `\[DETECTED_TOTAL:\s*([\d,.]+)\]` anchored at the current position
and return the captured token.  `\s` is modelled by `Char.isWhitespace`; the
greedy `[\d,.]+` run must be non-empty and must be followed immediately by
`]` (no backtracking can help, since `]` is outside the class). -/
def matchMarkerAt (s : List Char) : Option (List Char) :=
  match stripLit markerLit s with
  | none => none
  | some s1 =>
    let s2 := s1.dropWhile Char.isWhitespace
    let tok := s2.takeWhile isTokenChar
    if tok = [] then none
    else
      match s2.dropWhile isTokenChar with
      | ']' :: _ => some tok
      | _ => none

/-- The leftmost regex match of `fullText.match(/\[DETECTED_TOTAL:..../)`:
try each start position left to right. -/
def findMarker : List Char → Option (List Char)
  | [] => none
  | c :: rest =>
    match matchMarkerAt (c :: rest) with
    | some tok => some tok
    | none => findMarker rest

/-- Value of a digit string. -/
def digitsToNat (s : List Char) : Nat :=
  s.foldl (fun n c => 10 * n + (c.toNat - 48)) 0

/-- JS `parseFloat` restricted to its input here — a string over digits and
dots (the comma-stripped token): the longest prefix of shape
`digits ['.' digits]` is parsed, and the result is `NaN` when that prefix
holds no digit at all (e.g. an empty string or a bare `.`). -/
def parseFloatTok (s : List Char) : JsNum :=
  let ip := s.takeWhile Char.isDigit
  match s.dropWhile Char.isDigit with
  | '.' :: r2 =>
    let fp := r2.takeWhile Char.isDigit
    if ip = [] ∧ fp = [] then JsNum.nan
    else JsNum.num ((digitsToNat ip : ℚ) + (digitsToNat fp : ℚ) / 10 ^ fp.length)
  | _ =>
    if ip = [] then JsNum.nan
    else JsNum.num (digitsToNat ip)

/-- The `[DETECTED_TOTAL: …]` extraction of `analyzeInspection`
(`geminiService.ts`): first match of the marker regex, thousands separators
stripped, `parseFloat` of the token; `none` when there is no match
(`detectedTotal` left `undefined`). -/
def extractDetectedTotal (text : String) : Option JsNum :=
  (findMarker text.toList).map
    (fun tok => parseFloatTok (tok.filter (fun c => ¬ c = ',')))

end GeminiService

namespace App

/-- The `data.program as unknown as PostReviewStatus` cast of `handleAnalyze`:
the string value carries over (HCUV, HAPO and Certified are shared values of
the two enums). -/
def statusOfProgram : InventoryProgram → PostReviewStatus
  | InventoryProgram.HCUV => PostReviewStatus.HCUV
  | InventoryProgram.HAPO => PostReviewStatus.HAPO
  | InventoryProgram.CERTIFIED => PostReviewStatus.CERTIFIED

/-- The JS expression `result.detectedTotal || data.serviceDepartmentEstimate`:
`undefined`, `NaN` and `0` are all falsy, so the user-entered estimate
survives exactly in those cases. -/
def jsOrEstimate (detectedTotal : Option JsNum) (userEstimate : Option ℚ) :
    Option ℚ :=
  match detectedTotal with
  | some (JsNum.num q) => if q = 0 then userEstimate else some q
  | _ => userEstimate

/-- The case construction inside `handleAnalyze` (`App.tsx`): a fresh id and
timestamp, the service-department estimate overwritten by the truthy detected
total, the initial status cast from the selected program, and an empty
history. -/
def handleAnalyze (vehicle : Vehicle) (data : InspectionData) (mode : String)
    (analysisText : String) (uuid : String) (now : Int) : InspectionCase :=
  let detectedTotal := GeminiService.extractDetectedTotal analysisText
  { id := uuid, timestamp := now, mode := mode, vehicle := vehicle
  , data := { data with serviceDepartmentEstimate :=
                jsOrEstimate detectedTotal data.serviceDepartmentEstimate }
  , analysis := some analysisText
  , detectedTotal := detectedTotal
  , currentStatus := statusOfProgram data.program
  , statusHistory := [] }

end App

/-- Counterexample to C10: the text `"Report [DETECTED_TOTAL: ,] end"` does
contain a `[DETECTED_TOTAL: …]` marker (the regex token class `[\d,.]+`
matches the bare comma), its token parses to `NaN` — which is neither absent
nor equal to 0 — and yet the user-entered service estimate is kept, because
`NaN` is falsy in `result.detectedTotal || data.serviceDepartmentEstimate`. -/
theorem C10_counterexample :
    GeminiService.findMarker ("Report [DETECTED_TOTAL: ,] end".toList) = some [',']
    ∧ GeminiService.extractDetectedTotal "Report [DETECTED_TOTAL: ,] end"
        = some JsNum.nan
    ∧ ¬ GeminiService.extractDetectedTotal "Report [DETECTED_TOTAL: ,] end"
        = some (JsNum.num 0)
    ∧ sampleData.serviceDepartmentEstimate = some 1000
    ∧ (App.handleAnalyze freshVehicle sampleData "Audit Mode"
          "Report [DETECTED_TOTAL: ,] end" "u1" 7).data.serviceDepartmentEstimate
        = some 1000 := by
  decide

/-- C10 as amended: at case creation the service-department estimate is
overwritten with the detected total exactly when the marker's token parses to
a nonzero number; the user-entered estimate is kept when the marker is absent,
when the token parses to 0, and also when the token fails to parse as a number
(`parseFloat` yields `NaN`, e.g. a token of only commas/dots — the one case
the original claim missed).  The stored `detectedTotal` is the extraction
result, the new case starts with an empty history, and the (possibly
overwritten) estimate is the value the technician-variance statistic reads. -/
theorem C10_detected_total_override (v : Vehicle) (d : InspectionData)
    (mode uuid : String) (now : Int) (text : String) :
    (∀ q : ℚ, GeminiService.extractDetectedTotal text = some (JsNum.num q) →
        ¬ q = 0 →
        (App.handleAnalyze v d mode text uuid now).data.serviceDepartmentEstimate
          = some q)
    ∧ (GeminiService.extractDetectedTotal text = none →
        (App.handleAnalyze v d mode text uuid now).data.serviceDepartmentEstimate
          = d.serviceDepartmentEstimate)
    ∧ (GeminiService.extractDetectedTotal text = some (JsNum.num 0) →
        (App.handleAnalyze v d mode text uuid now).data.serviceDepartmentEstimate
          = d.serviceDepartmentEstimate)
    ∧ (GeminiService.extractDetectedTotal text = some JsNum.nan →
        (App.handleAnalyze v d mode text uuid now).data.serviceDepartmentEstimate
          = d.serviceDepartmentEstimate)
    ∧ (App.handleAnalyze v d mode text uuid now).detectedTotal
        = GeminiService.extractDetectedTotal text
    ∧ (App.handleAnalyze v d mode text uuid now).statusHistory = []
    ∧ StorageService.caseVariance (App.handleAnalyze v d mode text uuid now)
        = (App.handleAnalyze v d mode text uuid now).data.serviceDepartmentEstimate.getD 0
          - d.managerAppraisalEstimate.getD 0 := by
  refine ⟨?_, ?_, ?_, ?_, rfl, rfl, rfl⟩
  · intro q hq hq0
    simp [App.handleAnalyze, App.jsOrEstimate, hq, hq0]
  · intro hq
    simp [App.handleAnalyze, App.jsOrEstimate, hq]
  · intro hq
    simp [App.handleAnalyze, App.jsOrEstimate, hq]
  · intro hq
    simp [App.handleAnalyze, App.jsOrEstimate, hq]

/-- Witness for the amended C10: a text with marker token `670` overwrites the
user estimate with 670, and a marker-free text keeps it. -/
theorem C10_detected_total_override_witness :
    (App.handleAnalyze freshVehicle sampleData "Audit Mode"
        "Total [DETECTED_TOTAL: 670] end" "u2" 8).data.serviceDepartmentEstimate
      = some 670
    ∧ (App.handleAnalyze freshVehicle sampleData "Audit Mode"
        "no marker here" "u3" 9).data.serviceDepartmentEstimate
      = sampleData.serviceDepartmentEstimate :=
  ⟨(C10_detected_total_override freshVehicle sampleData "Audit Mode" "u2" 8
      "Total [DETECTED_TOTAL: 670] end").1 670 (by decide) (by decide),
   (C10_detected_total_override freshVehicle sampleData "Audit Mode" "u3" 9
      "no marker here").2.1 (by decide)⟩
